import Mathlib

/-!
# Verification of the clinical-trial MOA mapping app

A shallow embedding of `app.py`, a single-file Streamlit tool that fetches
clinical trials from the clinicaltrials.gov v2 API, extracts experimental drug
candidates, classifies their mechanism of action via an LLM, and charts the
result.

Python strings are modelled as lists of characters (`Str`) so that slicing
(`[:4]`), `strip`, `split(":", 1)` and membership tests all compute inside the
kernel.  Optional JSON fields are `Option`-valued; a Python `dict[...]` access
that can raise `KeyError` (and the `[0]` index that can raise `IndexError`)
is modelled in the `Option` monad, a `none` standing for the raised exception.
-/

namespace ClinicalTrialApp

/-- Python strings, as character lists. -/
abbrev Str := List Char

/-- Python `str.strip()`: remove whitespace from both ends. -/
def strip (s : Str) : Str :=
  ((s.dropWhile Char.isWhitespace).reverse.dropWhile Char.isWhitespace).reverse

/-! ## Data model: trial records as returned by the registry API -/

/-- One entry of `armGroups`: both fields are optional JSON keys
(`a.get("type")` tolerates absence, `a["label"]` raises on absence). -/
structure ArmGroup where
  type : Option Str
  label : Option Str
deriving DecidableEq

/-- One entry of `interventions`; every access in the source uses `.get`
with a default, so absence never raises here. -/
structure Intervention where
  type : Option Str
  name : Option Str
  description : Option Str
  armGroupLabels : Option (List Str)
deriving DecidableEq

structure DesignModule where
  phases : Option (List Str)
deriving DecidableEq

structure StartDateStruct where
  date : Option Str
deriving DecidableEq

structure StatusModule where
  startDateStruct : Option StartDateStruct
deriving DecidableEq

structure LeadSponsor where
  name : Option Str
deriving DecidableEq

structure SponsorCollaboratorsModule where
  leadSponsor : Option LeadSponsor
deriving DecidableEq

structure ArmsInterventionsModule where
  armGroups : Option (List ArmGroup)
  interventions : Option (List Intervention)
deriving DecidableEq

structure ProtocolSection where
  armsInterventionsModule : Option ArmsInterventionsModule
  designModule : Option DesignModule
  statusModule : Option StatusModule
  sponsorCollaboratorsModule : Option SponsorCollaboratorsModule
deriving DecidableEq

/-- A study object of the registry response; only `protocolSection` is read. -/
structure TrialRecord where
  protocolSection : Option ProtocolSection
deriving DecidableEq

/-- The normalized row appended to the `interventions` list (app.py 130-139). -/
structure CandidateRow where
  drug : Str
  description : Str
  phase : Str
  year : Str
  sponsor : Str
deriving DecidableEq

/-! ## Trial registry fetcher (app.py 74-101) -/

/-- One page of the registry response: a `studies` array and an optional
`nextPageToken`. -/
structure RegistryResponse where
  studies : List TrialRecord
  nextPageToken : Option Str
deriving DecidableEq

/-- Python truthiness of the `page_token` variable: `None` and the empty
string are both falsy.  It governs the `if page_token:` guard that adds the
`pageToken` parameter (app.py 91-92) and the `if not page_token: break` exit
test (app.py 100-101). -/
def truthy : Option Str → Bool
  | none => false
  | some t => !t.isEmpty

/-- The exhaustive pagination loop (app.py 79-101), run against a mocked
sequence of registry responses consumed one per request.  The first component
of the result is the accumulated `all_trials` list, the second is the
`pageToken` parameter carried by each request in order (`none` where the
parameter is omitted because `page_token` is falsy — on the first request,
with `page_token = None`).  The loop continues only while the response's
`nextPageToken` is truthy (`if not page_token: break`), so an absent *or
empty* token ends pagination.  The result is `none` when the loop would issue
a request beyond the mocked response sequence. -/
def fetchPages : Option Str → List RegistryResponse → Option (List TrialRecord × List (Option Str))
  | _, [] => none
  | tok, resp :: rest =>
    let param : Option Str := if truthy tok then tok else none
    if truthy resp.nextPageToken then
      match fetchPages resp.nextPageToken rest with
      | none => none
      | some (studies, reqs) => some (resp.studies ++ studies, param :: reqs)
    else
      some (resp.studies, [param])

/-- Entry point of the pagination loop: `page_token = None` initially. -/
def all_trials (responses : List RegistryResponse) :
    Option (List TrialRecord × List (Option Str)) :=
  fetchPages none responses

/-! ## Intervention extractor (app.py 110-141) -/

/-- `protocol.get("armsInterventionsModule", {}).get("armGroups", [])`. -/
def armGroupsOf (p : ProtocolSection) : List ArmGroup :=
  match p.armsInterventionsModule with
  | none => []
  | some m => m.armGroups.getD []

/-- `protocol.get("armsInterventionsModule", {}).get("interventions", [])`. -/
def interventionsOf (p : ProtocolSection) : List Intervention :=
  match p.armsInterventionsModule with
  | none => []
  | some m => m.interventions.getD []

/-- `a.get("type") in ["EXPERIMENTAL", "ACTIVE_COMPARATOR"]` (app.py 118). -/
def isExperimentalArm (a : ArmGroup) : Bool :=
  a.type == some "EXPERIMENTAL".data || a.type == some "ACTIVE_COMPARATOR".data

/-- `[a["label"] for a in experimental_arms]` (app.py 120): the mandatory
`label` access raises (modelled `none`) as soon as one arm lacks a label. -/
def labelsOf : List ArmGroup → Option (List Str)
  | [] => some []
  | a :: rest =>
    match a.label with
    | none => none
    | some lbl => (labelsOf rest).map (lbl :: ·)

/-- `protocol["designModule"].get("phases", ["Unknown"])[0]` (app.py 133):
raises when `designModule` is absent or when `phases` is present but empty
(the `[0]` index). -/
def phaseOf (p : ProtocolSection) : Option Str :=
  match p.designModule with
  | none => none
  | some dm => (dm.phases.getD ["Unknown".data]).head?

/-- `protocol["statusModule"].get("startDateStruct", {}).get("date", "")[:4]`
(app.py 134-136): raises only when `statusModule` itself is absent. -/
def yearOf (p : ProtocolSection) : Option Str :=
  match p.statusModule with
  | none => none
  | some sm => some (((sm.startDateStruct.getD ⟨none⟩).date.getD []).take 4)

/-- `protocol["sponsorCollaboratorsModule"]["leadSponsor"]["name"]`
(app.py 137-138): every step is a mandatory access. -/
def sponsorNameOf (p : ProtocolSection) : Option Str :=
  match p.sponsorCollaboratorsModule with
  | none => none
  | some scm =>
    match scm.leadSponsor with
    | none => none
    | some ls => ls.name

/-- The row dictionary literal (app.py 130-139).  Python evaluates the values
in order `drug`, `description`, `phase`, `year`, `sponsor`; the first raising
access aborts the construction, which the nested matches mirror. -/
def buildRow (p : ProtocolSection) (i : Intervention) : Option CandidateRow :=
  match phaseOf p with
  | none => none
  | some phase =>
    match yearOf p with
    | none => none
    | some year =>
      match sponsorNameOf p with
      | none => none
      | some sponsor =>
        some { drug := i.name.getD "Unknown".data
               description := i.description.getD []
               phase := phase
               year := year
               sponsor := sponsor }

/-- The guard of app.py 127-129: a DRUG intervention at least one of whose
arm-group labels is among the experimental-arm labels. -/
def keepIntervention (expLabels : List Str) (i : Intervention) : Bool :=
  i.type == some "DRUG".data
    && (i.armGroupLabels.getD []).any (fun lbl => expLabels.contains lbl)

/-- The `for intervention in trial_interventions` loop (app.py 126-139).
Returns the rows appended and whether the row construction raised (ending the
trial's processing early; rows already appended stay, because `interventions`
is a list shared across the whole outer loop). -/
def interventionLoop (p : ProtocolSection) (expLabels : List Str) :
    List Intervention → List CandidateRow × Bool
  | [] => ([], false)
  | i :: rest =>
    if keepIntervention expLabels i then
      match buildRow p i with
      | none => ([], true)
      | some row =>
        let (rows, raised) := interventionLoop p expLabels rest
        (row :: rows, raised)
    else
      interventionLoop p expLabels rest

/-- The body of `for trial in all_trials` (app.py 112-141): the rows this one
trial contributes to the shared `interventions` list.  The bare
`except Exception: continue` turns every raised access into an early end of
the body, keeping whatever was appended before the raise. -/
def extractTrial (t : TrialRecord) : List CandidateRow :=
  match t.protocolSection with
  | none => []
  | some p =>
    let experimental_arms := (armGroupsOf p).filter isExperimentalArm
    match labelsOf experimental_arms with
    | none => []
    | some experimental_labels =>
      (interventionLoop p experimental_labels (interventionsOf p)).1

/-- The full `interventions` list after the outer loop over `all_trials`. -/
def extractAll (trials : List TrialRecord) : List CandidateRow :=
  trials.flatMap extractTrial

/-! ## Candidate deduplicator (app.py 143-147) -/

/-- The `subset=["drug", "sponsor", "phase"]` composite key. -/
def rowKey (r : CandidateRow) : Str × Str × Str := (r.drug, r.sponsor, r.phase)

/-- First-occurrence deduplication keyed by `k`, carrying the set of keys
already seen: the semantics of pandas `drop_duplicates` with its default
`keep="first"` (row order otherwise preserved). -/
def dedupByAux {α β : Type} [DecidableEq β] (k : α → β) (seen : List β) :
    List α → List α
  | [] => []
  | x :: rest =>
    if k x ∈ seen then dedupByAux k seen rest
    else x :: dedupByAux k (k x :: seen) rest

def dedupBy {α β : Type} [DecidableEq β] (k : α → β) (l : List α) : List α :=
  dedupByAux k [] l

/-- `df.drop_duplicates(subset=["drug", "sponsor", "phase"])` (app.py 143-147);
`reset_index(drop=True)` only renumbers and is identity here. -/
def drop_duplicates (rows : List CandidateRow) : List CandidateRow :=
  dedupBy rowKey rows

/-! ## MOA classifier response parsing (app.py 200-206) -/

/-- Python `":" in line`. -/
def hasColon (line : Str) : Bool := line.contains ':'

/-- Python `line.split(":", 1)` for a line containing a colon: the text
before the first colon and the text after it. -/
def splitFirstColon (line : Str) : Str × Str :=
  (line.takeWhile (· ≠ ':'), (line.dropWhile (· ≠ ':')).drop 1)

/-- One iteration of `for line in moa_labels.splitlines()` (app.py 201-204):
a line with a colon contributes the stripped pair, any other line nothing. -/
def parseLine (line : Str) : Option (Str × Str) :=
  if hasColon line then
    some (strip (splitFirstColon line).1, strip (splitFirstColon line).2)
  else
    none

/-- The `moa_map` dict, built line by line; the association list keeps the
most recent binding for a key in front, so a first-match lookup sees the
latest write, which is exactly the dict's overwrite semantics. -/
def moa_map (lines : List Str) : List (Str × Str) :=
  lines.foldl (fun m line =>
    match parseLine line with
    | none => m
    | some kv => kv :: m) []

/-- First-match association-list lookup (dict read). -/
def lookupFirst {α β : Type} [DecidableEq α] : List (α × β) → α → Option β
  | [], _ => none
  | (k, v) :: rest, d => if k = d then some v else lookupFirst rest d

/-- A candidate row together with its `moa` column. -/
structure ClassifiedRow where
  row : CandidateRow
  moa : Str
deriving DecidableEq

/-- `df["moa"] = df["drug"].map(moa_map).fillna("Other")` (app.py 206):
per-row exact lookup of the drug name as stored, `"Other"` when absent. -/
def assignMoa (m : List (Str × Str)) (rows : List CandidateRow) :
    List ClassifiedRow :=
  rows.map (fun r => ⟨r, (lookupFirst m r.drug).getD "Other".data⟩)

/-! ## Phase/MOA matrix (app.py 214)

`df.groupby(["phase", "moa"]).size().unstack(fill_value=0)`.  pandas sorts
the resulting index and columns; the claims under verification are insensitive
to label order, so the model lists distinct labels in first-seen order. -/

/-- The distinct `(phase, moa)` pairs observed, i.e. the groupby keys. -/
def observedPairs (rows : List ClassifiedRow) : List (Str × Str) :=
  dedupBy id (rows.map (fun r => (r.row.phase, r.moa)))

/-- `groupby(["phase", "moa"]).size()`: each observed pair with the number of
rows in its group. -/
def groupSizes (rows : List ClassifiedRow) : List ((Str × Str) × Nat) :=
  (observedPairs rows).map (fun pm =>
    (pm, (rows.filter (fun r => decide ((r.row.phase, r.moa) = pm))).length))

/-- The row index of the unstacked frame: distinct phase values observed. -/
def matrixPhases (rows : List ClassifiedRow) : List Str :=
  dedupBy id (rows.map (fun r => r.row.phase))

/-- The columns of the unstacked frame: distinct MOA labels observed. -/
def matrixMoas (rows : List ClassifiedRow) : List Str :=
  dedupBy id (rows.map (fun r => r.moa))

/-- One cell of `unstack(fill_value=0)`: the group size when the pair was
observed, the fill value 0 otherwise. -/
def matrixCell (rows : List ClassifiedRow) (phase moa : Str) : Nat :=
  (lookupFirst (groupSizes rows) (phase, moa)).getD 0

/-! ## LLM client (app.py 20-41) -/

/-- The response to the single POST of `llm`: the HTTP status, the raw body
(`r.text`), and the decoded body's `choices` reduced to each choice's
`message.content`. -/
structure HttpResponse where
  status_code : Nat
  text : Str
  choices : List Str
deriving DecidableEq

/-- Outcome of one `llm` call.  `halted s b` is the `st.error`/`st.code`/
`st.stop()` path surfacing status `s` and raw body `b` to the user and ending
the run; `crash` is the uncaught `IndexError` of `["choices"][0]` on a 200
response with no choices. -/
inductive LlmResult where
  | halted (status : Nat) (body : Str)
  | ok (content : Str)
  | crash
deriving DecidableEq

/-- `llm` (app.py 20-41): a single request with no retry; `status_code != 200`
surfaces the code and raw body and stops, otherwise the first choice's message
content is returned. -/
def llm (r : HttpResponse) : LlmResult :=
  if r.status_code ≠ 200 then
    .halted r.status_code r.text
  else
    match r.choices.head? with
    | some content => .ok content
    | none => .crash

/-! ## Statements the spec makes, used where a claim is settled negatively -/

/-- Claim C1 as stated: whenever every response *contains* a `nextPageToken`
except the last (mere presence, no matter the value), the fetcher is claimed
to fetch every page, echo each token, and stop only at the token-less last
response. -/
def claimC1 : Prop :=
  ∀ (responses : List RegistryResponse) (h1 : responses ≠ []),
    (∀ r ∈ responses.dropLast, r.nextPageToken.isSome) →
    (responses.getLast h1).nextPageToken = none →
    all_trials responses =
      some ((responses.map (·.studies)).flatten,
        none :: responses.dropLast.map (·.nextPageToken))

/-- Modelled from the spec (§3): the phase field rule as worded — first
element of the declared phase list, `"Unknown"` when the list is absent
*or empty*. -/
def specPhase (phases : Option (List Str)) : Str :=
  match phases with
  | none => "Unknown".data
  | some [] => "Unknown".data
  | some (ph :: _) => ph

/-- Claim C4 as stated: whenever a design module is present, the row-phase
computation succeeds and follows `specPhase` — in particular a present but
empty phase list is claimed to give `"Unknown"`. -/
def claimC4 : Prop :=
  ∀ (p : ProtocolSection) (dm : DesignModule), p.designModule = some dm →
    phaseOf p = some (specPhase dm.phases)

/-- Claim C6 as stated: after classification every row's `moa` is the MoaMap
value under exact-match lookup of the row's *trimmed* drug name when present,
`"Other"` otherwise, and `moa` is never empty. -/
def claimC6 : Prop :=
  ∀ (m : List (Str × Str)) (rows : List CandidateRow),
    ∀ c ∈ assignMoa m rows,
      (∀ v, lookupFirst m (strip c.row.drug) = some v → c.moa = v) ∧
      (lookupFirst m (strip c.row.drug) = none → c.moa = "Other".data) ∧
      c.moa ≠ []

/-- The structural absences enumerated by claim C9: missing protocol section,
missing design/status/sponsor sub-section, or missing lead-sponsor name. -/
def hasStructuralAbsence (t : TrialRecord) : Bool :=
  match t.protocolSection with
  | none => true
  | some p =>
    p.designModule.isNone || p.statusModule.isNone ||
      (match p.sponsorCollaboratorsModule with
       | none => true
       | some scm =>
         match scm.leadSponsor with
         | none => true
         | some ls => ls.name.isNone)

/-! ## Concrete fixtures for witnesses and counterexamples -/

def pageA : RegistryResponse := ⟨[⟨none⟩], some "TOKEN1".data⟩

def pageB : RegistryResponse := ⟨[⟨none⟩, ⟨none⟩], none⟩

/-- A page whose `nextPageToken` is present but empty: falsy in Python, so
the loop breaks here although the token is not absent. -/
def pageE1 : RegistryResponse := ⟨[⟨none⟩], some []⟩

def pageE2 : RegistryResponse := ⟨[⟨none⟩, ⟨none⟩], none⟩

def armA : ArmGroup := ⟨some "EXPERIMENTAL".data, some "Arm A".data⟩

def armB : ArmGroup := ⟨some "PLACEBO_COMPARATOR".data, some "Arm B".data⟩

def drugA : Intervention :=
  ⟨some "DRUG".data, some "DrugA".data, some "descA".data, some ["Arm A".data]⟩

def drugB : Intervention :=
  ⟨some "DRUG".data, some "DrugB".data, none, some ["Arm B".data]⟩

def protoC2 : ProtocolSection :=
  ⟨some ⟨some [armA, armB], some [drugA, drugB]⟩,
   some ⟨some ["PHASE2".data]⟩,
   some ⟨some ⟨some "2022-06-15".data⟩⟩,
   some ⟨some ⟨some "Acme".data⟩⟩⟩

def trialC2 : TrialRecord := ⟨some protoC2⟩

def rowC2 : CandidateRow :=
  ⟨"DrugA".data, "descA".data, "PHASE2".data, "2022".data, "Acme".data⟩

def rowC3a : CandidateRow :=
  ⟨"DrugX".data, "first description".data, "PHASE2".data, "2020".data, "Acme".data⟩

def rowC3b : CandidateRow :=
  ⟨"DrugX".data, "second description".data, "PHASE2".data, "2021".data, "Acme".data⟩

/-- A protocol whose `phases` list is present but empty; everything else is
well-formed and `drugA` qualifies. -/
def protoC4 : ProtocolSection :=
  ⟨some ⟨some [armA], some [drugA]⟩,
   some ⟨some []⟩,
   some ⟨some ⟨some "2022-06-15".data⟩⟩,
   some ⟨some ⟨some "Acme".data⟩⟩⟩

def trialC4 : TrialRecord := ⟨some protoC4⟩

def moaLinesC6 : List Str := ["DrugA: X".data, "DrugB:".data]

def mC6 : List (Str × Str) := moa_map moaLinesC6

/-- A drug name carrying a leading space: the classifier map holds the
trimmed key `"DrugA"`, the row holds `" DrugA"`. -/
def rowC6a : CandidateRow :=
  ⟨" DrugA".data, [], "PHASE2".data, "2022".data, "Acme".data⟩

def rowC6b : CandidateRow :=
  ⟨"DrugB".data, [], "PHASE2".data, "2022".data, "Acme".data⟩

def crowC7a : ClassifiedRow :=
  ⟨⟨"DrugA".data, [], "PHASE2".data, "2022".data, "Acme".data⟩, "Other".data⟩

def crowC7b : ClassifiedRow :=
  ⟨⟨"DrugB".data, [], "PHASE3".data, "2021".data, "Beta".data⟩, "Anti-IL17".data⟩

def rowsC7 : List ClassifiedRow := [crowC7a, crowC7b]

/-- A trial lacking its `statusModule`, with a qualifying DRUG intervention. -/
def trialC9 : TrialRecord :=
  ⟨some ⟨some ⟨some [armA], some [drugA]⟩,
    some ⟨some ["PHASE2".data]⟩,
    none,
    some ⟨some ⟨some "Acme".data⟩⟩⟩⟩

def drugNoName1 : Intervention :=
  ⟨some "DRUG".data, none, none, some ["Arm A".data]⟩

def drugNoName2 : Intervention :=
  ⟨some "DRUG".data, none, some "another description".data, some ["Arm A".data]⟩

def protoC10a : ProtocolSection :=
  ⟨some ⟨some [armA], some [drugNoName1]⟩,
   some ⟨some ["PHASE2".data]⟩,
   some ⟨some ⟨some "2020-01-01".data⟩⟩,
   some ⟨some ⟨some "Acme".data⟩⟩⟩

def protoC10b : ProtocolSection :=
  ⟨some ⟨some [armA], some [drugNoName2]⟩,
   some ⟨some ["PHASE2".data]⟩,
   some ⟨some ⟨some "2021-02-02".data⟩⟩,
   some ⟨some ⟨some "Acme".data⟩⟩⟩

def trialC10a : TrialRecord := ⟨some protoC10a⟩

def trialC10b : TrialRecord := ⟨some protoC10b⟩

def rowC10a : CandidateRow :=
  ⟨"Unknown".data, [], "PHASE2".data, "2020".data, "Acme".data⟩

def rowC10b : CandidateRow :=
  ⟨"Unknown".data, "another description".data, "PHASE2".data, "2021".data, "Acme".data⟩

/-! ## Generic facts about first-occurrence deduplication -/

theorem dedupByAux_sublist {α β : Type} [DecidableEq β] (k : α → β) :
    ∀ (l : List α) (seen : List β), (dedupByAux k seen l).Sublist l
  | [], _ => List.Sublist.refl _
  | x :: rest, seen => by
    simp only [dedupByAux]
    by_cases h : k x ∈ seen
    · simp only [if_pos h]
      exact (dedupByAux_sublist k rest seen).cons x
    · simp only [if_neg h]
      exact (dedupByAux_sublist k rest (k x :: seen)).cons₂ x

theorem mem_dedupByAux {α β : Type} [DecidableEq β] (k : α → β) (l : List α) :
    ∀ (seen : List β) (r : α),
      r ∈ dedupByAux k seen l ↔
        k r ∉ seen ∧ ∃ l1 l2, l = l1 ++ r :: l2 ∧ ∀ x ∈ l1, k x ≠ k r := by
  induction l with
  | nil =>
    intro seen r
    simp [dedupByAux]
  | cons a rest ih =>
    intro seen r
    simp only [dedupByAux]
    by_cases ha : k a ∈ seen
    · rw [if_pos ha, ih]
      constructor
      · rintro ⟨hr, l1, l2, hdec, hkeys⟩
        refine ⟨hr, a :: l1, l2, by rw [hdec]; rfl, ?_⟩
        intro x hx
        rcases List.mem_cons.mp hx with hx | hx
        · subst hx
          intro hEq
          exact hr (hEq ▸ ha)
        · exact hkeys x hx
      · rintro ⟨hr, l1, l2, hdec, hkeys⟩
        rcases l1 with _ | ⟨b, l1'⟩
        · rw [List.nil_append, List.cons.injEq] at hdec
          exact absurd (hdec.1 ▸ ha) hr
        · rw [List.cons_append, List.cons.injEq] at hdec
          obtain ⟨hab, hrest⟩ := hdec
          refine ⟨hr, l1', l2, hrest, fun x hx => hkeys x (List.mem_cons_of_mem b hx)⟩
    · rw [if_neg ha]
      rw [List.mem_cons, ih]
      constructor
      · rintro (rfl | ⟨hr, l1, l2, hdec, hkeys⟩)
        · exact ⟨ha, [], rest, rfl, by simp⟩
        · rw [List.mem_cons, not_or] at hr
          obtain ⟨hrka, hrseen⟩ := hr
          refine ⟨hrseen, a :: l1, l2, by rw [hdec, List.cons_append], ?_⟩
          intro x hx
          rcases List.mem_cons.mp hx with hx | hx
          · subst hx
            exact fun h => hrka h.symm
          · exact hkeys x hx
      · rintro ⟨hr, l1, l2, hdec, hkeys⟩
        rcases l1 with _ | ⟨b, l1'⟩
        · rw [List.nil_append, List.cons.injEq] at hdec
          exact Or.inl hdec.1.symm
        · rw [List.cons_append, List.cons.injEq] at hdec
          obtain ⟨hab, hrest⟩ := hdec
          subst hab
          right
          refine ⟨?_, l1', l2, hrest, fun x hx => hkeys x (List.mem_cons_of_mem a hx)⟩
          rw [List.mem_cons, not_or]
          exact ⟨fun h => hkeys a (List.mem_cons_self a l1') h.symm, hr⟩

theorem mem_dedupBy {α β : Type} [DecidableEq β] (k : α → β) (l : List α) (r : α) :
    r ∈ dedupBy k l ↔ ∃ l1 l2, l = l1 ++ r :: l2 ∧ ∀ x ∈ l1, k x ≠ k r := by
  rw [dedupBy, mem_dedupByAux]
  simp

/-- Every member of a list admits a decomposition at its first occurrence. -/
theorem exists_first_occurrence {α : Type} [DecidableEq α] (l : List α) (x : α)
    (h : x ∈ l) : ∃ l1 l2, l = l1 ++ x :: l2 ∧ x ∉ l1 := by
  induction l with
  | nil => cases h
  | cons a rest ih =>
    by_cases hax : a = x
    · exact ⟨[], rest, by rw [hax, List.nil_append], by simp⟩
    · have hx : x ∈ rest := by
        rcases List.mem_cons.mp h with h1 | h1
        · exact absurd h1.symm hax
        · exact h1
      obtain ⟨l1, l2, hdec, hnot⟩ := ih hx
      refine ⟨a :: l1, l2, by rw [hdec, List.cons_append], ?_⟩
      rw [List.mem_cons, not_or]
      exact ⟨fun hh => hax hh.symm, hnot⟩

theorem mem_dedupBy_id {α : Type} [DecidableEq α] (l : List α) (x : α) :
    x ∈ dedupBy id l ↔ x ∈ l := by
  constructor
  · intro h
    exact (dedupByAux_sublist id l []).subset h
  · intro h
    obtain ⟨l1, l2, hdec, hnot⟩ := exists_first_occurrence l x h
    refine (mem_dedupBy id l x).mpr ⟨l1, l2, hdec, fun y hy => ?_⟩
    simp only [id_eq]
    exact fun hh => hnot (hh ▸ hy)

theorem countP_dedupByAux {α β : Type} [DecidableEq β] (k : α → β) (l : List α) :
    ∀ (seen : List β) (c : β),
      (dedupByAux k seen l).countP (fun x => decide (k x = c)) =
        if c ∈ seen then 0
        else if l.any (fun x => decide (k x = c)) then 1 else 0 := by
  induction l with
  | nil =>
    intro seen c
    simp [dedupByAux]
  | cons a rest ih =>
    intro seen c
    simp only [dedupByAux]
    by_cases ha : k a ∈ seen
    · rw [if_pos ha, ih]
      by_cases hc : c ∈ seen
      · rw [if_pos hc, if_pos hc]
      · have hka : ¬ (k a = c) := fun h => hc (h ▸ ha)
        rw [if_neg hc, if_neg hc]
        have hcons : (a :: rest).any (fun x => decide (k x = c)) =
            rest.any (fun x => decide (k x = c)) := by
          rw [List.any_cons]
          simp [hka]
        rw [hcons]
    · rw [if_neg ha, List.countP_cons, ih]
      by_cases hka : k a = c
      · have hcs : c ∈ k a :: seen := by
          rw [hka]
          exact List.mem_cons_self _ _
        have hc : c ∉ seen := fun h => ha (hka ▸ h)
        rw [if_pos hcs, if_neg hc]
        have hany : (a :: rest).any (fun x => decide (k x = c)) = true := by
          rw [List.any_cons]
          simp [hka]
        rw [if_pos hany]
        simp [hka]
      · have hcons : (a :: rest).any (fun x => decide (k x = c)) =
            rest.any (fun x => decide (k x = c)) := by
          rw [List.any_cons]
          simp [hka]
        rw [hcons]
        by_cases hc : c ∈ seen
        · have hcs : c ∈ k a :: seen := List.mem_cons_of_mem _ hc
          rw [if_pos hcs, if_pos hc]
          simp [hka]
        · have hcs : c ∉ k a :: seen := by
            rw [List.mem_cons, not_or]
            exact ⟨fun h => hka h.symm, hc⟩
          rw [if_neg hcs, if_neg hc]
          simp [hka]

theorem countP_dedupBy_of_mem {α β : Type} [DecidableEq β] (k : α → β)
    (l : List α) (c : β) (h : ∃ x ∈ l, k x = c) :
    (dedupBy k l).countP (fun x => decide (k x = c)) = 1 := by
  rw [dedupBy, countP_dedupByAux]
  obtain ⟨x, hx, hk⟩ := h
  rw [if_neg (List.not_mem_nil c), if_pos]
  rw [List.any_eq_true]
  exact ⟨x, hx, by simp [hk]⟩

/-! ## C1: exhaustive pagination -/

theorem fetchPages_spec :
    ∀ (responses : List RegistryResponse) (tok : Option Str) (h1 : responses ≠ []),
      (∀ r ∈ responses.dropLast, truthy r.nextPageToken = true) →
      truthy (responses.getLast h1).nextPageToken = false →
      fetchPages tok responses =
        some ((responses.map (·.studies)).flatten,
          (if truthy tok then tok else none)
            :: responses.dropLast.map (·.nextPageToken)) := by
  intro responses
  induction responses with
  | nil =>
    intro tok h1
    exact absurd rfl h1
  | cons r rest ih =>
    intro tok h1 h2 h3
    cases rest with
    | nil =>
      rw [List.getLast_singleton] at h3
      simp [fetchPages, h3]
    | cons r2 rest2 =>
      have hr : truthy r.nextPageToken = true := by
        apply h2
        rw [List.dropLast_cons₂]
        exact List.mem_cons_self _ _
      have h2' : ∀ x ∈ (r2 :: rest2).dropLast, truthy x.nextPageToken = true := by
        intro x hx
        apply h2
        rw [List.dropLast_cons₂]
        exact List.mem_cons_of_mem _ hx
      have h3' : truthy
          ((r2 :: rest2).getLast (List.cons_ne_nil r2 rest2)).nextPageToken
          = false := by
        rw [← List.getLast_cons (List.cons_ne_nil r2 rest2)]
        exact h3
      have hrec := ih r.nextPageToken (List.cons_ne_nil r2 rest2) h2' h3'
      rw [if_pos hr] at hrec
      conv_lhs => rw [fetchPages]
      rw [hr, if_pos rfl, hrec, List.dropLast_cons₂]
      simp

/-- **C1 counterexample**: the claim reads "each response contains a
`nextPageToken` except the last", but the loop's exit test is Python
truthiness (`if not page_token: break`, app.py 100): at a present-but-empty
token the program stops after that page and never echoes the token, instead
of fetching the remaining pages as the claim asserts. -/
theorem pagination_exhaustive_cex :
    ¬ claimC1 ∧
      all_trials [pageE1, pageE2] = some (pageE1.studies, [none]) := by
  refine ⟨?_, by decide⟩
  intro hclaim
  exact absurd (hclaim [pageE1, pageE2] (by decide) (by decide) (by decide))
    (by decide)

/-- **C1 (amended)**: for every finite sequence of registry responses in
which each response except the last carries a *non-empty* `nextPageToken` and
the last one's token is absent or empty, the exhaustive fetcher issues
exactly one request per page (the first request without a `pageToken`
parameter, each later request echoing the previous response's
`nextPageToken`), accumulates the `studies` arrays of all pages in response
order, and stops immediately after the first response whose `nextPageToken`
is absent or empty. -/
theorem pagination_exhaustive (responses : List RegistryResponse)
    (h1 : responses ≠ [])
    (h2 : ∀ r ∈ responses.dropLast, truthy r.nextPageToken = true)
    (h3 : truthy (responses.getLast h1).nextPageToken = false) :
    all_trials responses =
      some ((responses.map (·.studies)).flatten,
        none :: responses.dropLast.map (·.nextPageToken)) ∧
      (none :: responses.dropLast.map (·.nextPageToken)).length
        = responses.length := by
  have h := fetchPages_spec responses none h1 h2 h3
  have hh : (if truthy (none : Option Str) then (none : Option Str) else none)
      = none := rfl
  rw [hh] at h
  refine ⟨h, ?_⟩
  rw [List.length_cons, List.length_map, List.length_dropLast]
  have hpos : 0 < responses.length := List.length_pos.mpr h1
  omega

/-- Witness for the amended C1 at a two-page mocked sequence with a non-empty
token on the first page. -/
theorem pagination_exhaustive_witness :
    all_trials [pageA, pageB] =
      some (([pageA, pageB].map (·.studies)).flatten,
        none :: [pageA, pageB].dropLast.map (·.nextPageToken)) ∧
      (none :: [pageA, pageB].dropLast.map (·.nextPageToken)).length
        = [pageA, pageB].length :=
  pagination_exhaustive [pageA, pageB] (by decide) (by decide) (by decide)

/-! ## C2: the candidate-row invariant -/

theorem mem_interventionLoop (p : ProtocolSection) (labels : List Str) :
    ∀ (l : List Intervention) (r : CandidateRow),
      r ∈ (interventionLoop p labels l).1 →
      ∃ i, i ∈ l ∧ keepIntervention labels i = true ∧ buildRow p i = some r := by
  intro l
  induction l with
  | nil =>
    intro r h
    simp [interventionLoop] at h
  | cons i rest ih =>
    intro r h
    simp only [interventionLoop] at h
    by_cases hk : keepIntervention labels i
    · rw [if_pos hk] at h
      cases hb : buildRow p i with
      | none =>
        rw [hb] at h
        simp at h
      | some row =>
        rw [hb] at h
        rcases hLoop : interventionLoop p labels rest with ⟨rows, raised⟩
        rw [hLoop] at h
        change r ∈ row :: rows at h
        rcases List.mem_cons.mp h with h1 | h1
        · exact ⟨i, List.mem_cons_self _ _, hk, by rw [hb, h1]⟩
        · obtain ⟨i', hi', hki', hbi'⟩ := ih r (by rw [hLoop]; exact h1)
          exact ⟨i', List.mem_cons_of_mem _ hi', hki', hbi'⟩
    · rw [if_neg hk] at h
      obtain ⟨i', hi', hki', hbi'⟩ := ih r h
      exact ⟨i', List.mem_cons_of_mem _ hi', hki', hbi'⟩

theorem mem_labelsOf :
    ∀ (arms : List ArmGroup) (labels : List Str), labelsOf arms = some labels →
      ∀ lbl ∈ labels, ∃ a ∈ arms, a.label = some lbl := by
  intro arms
  induction arms with
  | nil =>
    intro labels h lbl hl
    simp only [labelsOf, Option.some.injEq] at h
    subst h
    cases hl
  | cons a rest ih =>
    intro labels h lbl hl
    simp only [labelsOf] at h
    cases hal : a.label with
    | none =>
      rw [hal] at h
      cases h
    | some la =>
      rw [hal] at h
      cases hrest : labelsOf rest with
      | none =>
        rw [hrest] at h
        cases h
      | some ls =>
        rw [hrest] at h
        have h' : la :: ls = labels := by
          simpa using h
        subst h'
        rcases List.mem_cons.mp hl with h1 | h1
        · exact ⟨a, List.mem_cons_self _ _, by rw [hal, h1]⟩
        · obtain ⟨a', ha', hla'⟩ := ih ls hrest lbl h1
          exact ⟨a', List.mem_cons_of_mem _ ha', hla'⟩

/-- **C2**: every CandidateRow produced by the extractor comes from an
intervention of type `"DRUG"` at least one of whose arm-group labels is also
the label of an arm of type `"EXPERIMENTAL"` or `"ACTIVE_COMPARATOR"` in the
same trial record (a single matching label suffices); the contrapositive —
interventions of other types, or whose labels all belong to other arm types,
yield no row — is immediate from this. -/
theorem candidate_row_invariant (t : TrialRecord) (r : CandidateRow)
    (h : r ∈ extractTrial t) :
    ∃ p, t.protocolSection = some p ∧
      ∃ i, i ∈ interventionsOf p ∧ i.type = some "DRUG".data ∧
        ∃ lbl, lbl ∈ i.armGroupLabels.getD [] ∧
          ∃ a, a ∈ armGroupsOf p ∧
            (a.type = some "EXPERIMENTAL".data
              ∨ a.type = some "ACTIVE_COMPARATOR".data) ∧
            a.label = some lbl := by
  cases hps : t.protocolSection with
  | none =>
    simp [extractTrial, hps] at h
  | some p =>
    simp only [extractTrial, hps] at h
    cases hlab : labelsOf ((armGroupsOf p).filter isExperimentalArm) with
    | none =>
      simp [hlab] at h
    | some labels =>
      simp only [hlab] at h
      obtain ⟨i, hi, hk, hb⟩ := mem_interventionLoop p labels (interventionsOf p) r h
      rw [keepIntervention, Bool.and_eq_true] at hk
      obtain ⟨htype, hany⟩ := hk
      have htype' : i.type = some "DRUG".data := by
        simpa using htype
      rw [List.any_eq_true] at hany
      obtain ⟨lbl, hlbl, hcont⟩ := hany
      have hmem : lbl ∈ labels := by
        simpa using hcont
      obtain ⟨a, ha, hal⟩ := mem_labelsOf _ labels hlab lbl hmem
      rw [List.mem_filter] at ha
      obtain ⟨haG, haExp⟩ := ha
      have haExp' : a.type = some "EXPERIMENTAL".data
          ∨ a.type = some "ACTIVE_COMPARATOR".data := by
        rw [isExperimentalArm, Bool.or_eq_true] at haExp
        rcases haExp with h1 | h1
        · exact Or.inl (by simpa using h1)
        · exact Or.inr (by simpa using h1)
      exact ⟨p, rfl, i, hi, htype', lbl, hlbl, a, haG, haExp', hal⟩

/-- Witness for C2: a trial with one EXPERIMENTAL arm and one
PLACEBO_COMPARATOR arm yields exactly the row of the intervention tagged with
the experimental arm's label. -/
theorem candidate_row_invariant_witness :
    extractTrial trialC2 = [rowC2] ∧
    (∃ p, trialC2.protocolSection = some p ∧
      ∃ i, i ∈ interventionsOf p ∧ i.type = some "DRUG".data ∧
        ∃ lbl, lbl ∈ i.armGroupLabels.getD [] ∧
          ∃ a, a ∈ armGroupsOf p ∧
            (a.type = some "EXPERIMENTAL".data
              ∨ a.type = some "ACTIVE_COMPARATOR".data) ∧
            a.label = some lbl) :=
  ⟨by decide, candidate_row_invariant trialC2 rowC2 (by decide)⟩

/-! ## C3: deduplication keeps exactly the first occurrence per key -/

/-- **C3**: the deduplicator keeps exactly the rows that are the first
occurrence of their `(drug, sponsor, phase)` key — so every later row with an
already-seen key is dropped even when its `description` or `year` differ (the
first row wins with all its fields) — and the surviving rows form a sublist
of the input, i.e. they appear in the relative order of their first
occurrences. -/
theorem drop_duplicates_spec (l : List CandidateRow) :
    (drop_duplicates l).Sublist l ∧
      ∀ r : CandidateRow,
        r ∈ drop_duplicates l ↔
          ∃ l1 l2, l = l1 ++ r :: l2 ∧ ∀ x ∈ l1, rowKey x ≠ rowKey r := by
  constructor
  · exact dedupByAux_sublist rowKey l []
  · intro r
    exact mem_dedupBy rowKey l r

/-- Witness for C3: two rows with the same key and different descriptions
collapse to the first row, with its description. -/
theorem drop_duplicates_spec_witness :
    drop_duplicates [rowC3a, rowC3b] = [rowC3a] ∧
      rowC3a ∈ drop_duplicates [rowC3a, rowC3b] :=
  ⟨by decide,
    ((drop_duplicates_spec [rowC3a, rowC3b]).2 rowC3a).mpr
      ⟨[], [rowC3b], rfl, by decide⟩⟩

/-! ## C4: the phase field rule -/

theorem buildRow_fields (p : ProtocolSection) (i : Intervention)
    (r : CandidateRow) (h : buildRow p i = some r) :
    phaseOf p = some r.phase ∧ yearOf p = some r.year ∧
      sponsorNameOf p = some r.sponsor ∧
      r.drug = i.name.getD "Unknown".data ∧
      r.description = i.description.getD [] := by
  cases hp : phaseOf p with
  | none =>
    rw [buildRow, hp] at h
    cases h
  | some ph =>
    cases hy : yearOf p with
    | none =>
      simp [buildRow, hp, hy] at h
    | some yr =>
      cases hs : sponsorNameOf p with
      | none =>
        simp [buildRow, hp, hy, hs] at h
      | some sp =>
        simp only [buildRow, hp, hy, hs, Option.some.injEq] at h
        subst h
        exact ⟨rfl, rfl, rfl, rfl, rfl⟩

theorem buildRow_none_of_phaseOf_none (p : ProtocolSection)
    (h : phaseOf p = none) : ∀ i, buildRow p i = none := by
  intro i
  simp [buildRow, h]

theorem interventionLoop_nil_of_buildRow_none (p : ProtocolSection)
    (labels : List Str) (hnone : ∀ i, buildRow p i = none) :
    ∀ l, (interventionLoop p labels l).1 = [] := by
  intro l
  induction l with
  | nil => rfl
  | cons i rest ih =>
    simp only [interventionLoop]
    by_cases hk : keepIntervention labels i
    · rw [if_pos hk, hnone i]
    · rw [if_neg hk]
      exact ih

theorem extractTrial_nil_of_phaseOf_none (t : TrialRecord) (p : ProtocolSection)
    (hps : t.protocolSection = some p) (h : phaseOf p = none) :
    extractTrial t = [] := by
  have hb : ∀ i, buildRow p i = none := buildRow_none_of_phaseOf_none p h
  simp only [extractTrial, hps]
  cases hlab : labelsOf ((armGroupsOf p).filter isExperimentalArm) with
  | none => simp [hlab]
  | some labels =>
    simp only [hlab]
    exact interventionLoop_nil_of_buildRow_none p labels hb (interventionsOf p)

theorem exists_buildRow_of_mem_extractTrial (t : TrialRecord) (r : CandidateRow)
    (h : r ∈ extractTrial t) :
    ∃ p i, t.protocolSection = some p ∧ buildRow p i = some r := by
  cases hps : t.protocolSection with
  | none =>
    simp [extractTrial, hps] at h
  | some p =>
    simp only [extractTrial, hps] at h
    cases hlab : labelsOf ((armGroupsOf p).filter isExperimentalArm) with
    | none =>
      simp [hlab] at h
    | some labels =>
      simp only [hlab] at h
      obtain ⟨i, -, -, hb⟩ := mem_interventionLoop p labels (interventionsOf p) r h
      exact ⟨p, i, rfl, hb⟩

/-- **C4 counterexample**: the claim says a present-but-empty phase list
yields the phase `"Unknown"`; in the code the `[0]` index raises instead, so
the phase computation fails and the whole record is skipped with no row. -/
theorem phase_field_rule_cex :
    ¬ claimC4 ∧ phaseOf protoC4 = none ∧ extractTrial trialC4 = [] := by
  refine ⟨?_, by decide, by decide⟩
  intro hclaim
  exact absurd (hclaim protoC4 ⟨some []⟩ (by decide)) (by decide)

/-- **C4 (amended)**: a row's `phase` is the first element of the declared
phase list when that list is present and non-empty, and `"Unknown"` when the
list is absent; a record whose phase list is present but empty yields no row
at all (the record is skipped entirely). -/
theorem phase_field_rule (t : TrialRecord) (p : ProtocolSection)
    (dm : DesignModule) (hps : t.protocolSection = some p)
    (hdm : p.designModule = some dm) :
    (∀ r ∈ extractTrial t,
      (dm.phases = none → r.phase = "Unknown".data) ∧
      (∀ x xs, dm.phases = some (x :: xs) → r.phase = x)) ∧
    (dm.phases = some [] → extractTrial t = []) := by
  constructor
  · intro r hr
    obtain ⟨p', i, hp', hb⟩ := exists_buildRow_of_mem_extractTrial t r hr
    rw [hps] at hp'
    injection hp' with hp'
    subst hp'
    have hph : phaseOf p = some r.phase := (buildRow_fields p i r hb).1
    constructor
    · intro hnone
      simp only [phaseOf, hdm, hnone, Option.getD_none, List.head?_cons,
        Option.some.injEq] at hph
      exact hph.symm
    · intro x xs hsome
      simp only [phaseOf, hdm, hsome, Option.getD_some, List.head?_cons,
        Option.some.injEq] at hph
      exact hph.symm
  · intro hempty
    apply extractTrial_nil_of_phaseOf_none t p hps
    simp [phaseOf, hdm, hempty]

/-- Witness for the amended C4 at a concrete trial with phase list
`["PHASE2"]`. -/
theorem phase_field_rule_witness :
    (∀ r ∈ extractTrial trialC2,
      ((⟨some ["PHASE2".data]⟩ : DesignModule).phases = none →
          r.phase = "Unknown".data) ∧
      (∀ x xs, (⟨some ["PHASE2".data]⟩ : DesignModule).phases = some (x :: xs) →
          r.phase = x)) ∧
    ((⟨some ["PHASE2".data]⟩ : DesignModule).phases = some [] →
        extractTrial trialC2 = []) :=
  phase_field_rule trialC2 protoC2 ⟨some ["PHASE2".data]⟩ (by decide) (by decide)

/-! ## C5: classifier response parsing -/

theorem hasColon_iff (line : Str) : hasColon line = true ↔ ':' ∈ line := by
  simp [hasColon, List.contains]

theorem colon_split (line : Str) (h : ':' ∈ line) :
    ∃ pre post, line = pre ++ ':' :: post ∧ ':' ∉ pre ∧
      line.takeWhile (· ≠ ':') = pre ∧
      line.dropWhile (· ≠ ':') = ':' :: post := by
  induction line with
  | nil => cases h
  | cons a rest ih =>
    by_cases ha : a = ':'
    · subst ha
      refine ⟨[], rest, rfl, by simp, ?_, ?_⟩
      · rw [List.takeWhile_cons, if_neg (by decide)]
      · rw [List.dropWhile_cons, if_neg (by decide)]
    · have hrest : ':' ∈ rest := by
        rcases List.mem_cons.mp h with h1 | h1
        · exact absurd h1.symm ha
        · exact h1
      obtain ⟨pre, post, hdec, hnot, htake, hdrop⟩ := ih hrest
      have hpa : decide (a ≠ ':') = true := decide_eq_true ha
      refine ⟨a :: pre, post, by rw [hdec, List.cons_append], ?_, ?_, ?_⟩
      · rw [List.mem_cons, not_or]
        exact ⟨fun hh => ha hh.symm, hnot⟩
      · rw [List.takeWhile_cons, if_pos hpa, htake]
      · rw [List.dropWhile_cons, if_pos hpa, hdrop]

theorem takeWhile_append_colon :
    ∀ (pre post : Str), ':' ∉ pre →
      (pre ++ ':' :: post).takeWhile (· ≠ ':') = pre := by
  intro pre
  induction pre with
  | nil =>
    intro post h
    rw [List.nil_append, List.takeWhile_cons, if_neg (by decide)]
  | cons a pre' ih =>
    intro post h
    rw [List.mem_cons, not_or] at h
    have ha : a ≠ ':' := fun hh => h.1 hh.symm
    have hpa : decide (a ≠ ':') = true := decide_eq_true ha
    rw [List.cons_append, List.takeWhile_cons, if_pos hpa, ih post h.2]

theorem dropWhile_append_colon :
    ∀ (pre post : Str), ':' ∉ pre →
      (pre ++ ':' :: post).dropWhile (· ≠ ':') = ':' :: post := by
  intro pre
  induction pre with
  | nil =>
    intro post h
    rw [List.nil_append, List.dropWhile_cons, if_neg (by decide)]
  | cons a pre' ih =>
    intro post h
    rw [List.mem_cons, not_or] at h
    have ha : a ≠ ':' := fun hh => h.1 hh.symm
    have hpa : decide (a ≠ ':') = true := decide_eq_true ha
    rw [List.cons_append, List.dropWhile_cons, if_pos hpa]
    exact ih post h.2

theorem moa_map_append (ls : List Str) (line : Str) :
    moa_map (ls ++ [line]) =
      match parseLine line with
      | none => moa_map ls
      | some kv => kv :: moa_map ls := by
  rw [moa_map, List.foldl_append, List.foldl_cons, List.foldl_nil]
  rfl

/-- **C5**: the MoaMap parser handles lines independently; a line with at
least one colon contributes exactly the entry whose key is the stripped text
before the first colon and whose value is the stripped text after it, a line
without a colon contributes nothing, and a later line's entry for a repeated
key overwrites (shadows) the earlier one in every lookup. -/
theorem moa_line_parsing (ls : List Str) (line : Str) :
    (∀ k v, parseLine line = some (k, v) ↔
      ∃ pre post, line = pre ++ ':' :: post ∧ ':' ∉ pre ∧
        k = strip pre ∧ v = strip post) ∧
    (hasColon line = false → moa_map (ls ++ [line]) = moa_map ls) ∧
    (∀ k v, parseLine line = some (k, v) →
      lookupFirst (moa_map (ls ++ [line])) k = some v) := by
  refine ⟨?_, ?_, ?_⟩
  · intro k v
    constructor
    · intro hp
      have hc : hasColon line = true := by
        by_contra hc
        rw [parseLine, if_neg] at hp
        · cases hp
        · exact fun hh => hc hh
      obtain ⟨pre, post, hdec, hnot, htake, hdrop⟩ :=
        colon_split line ((hasColon_iff line).mp hc)
      rw [parseLine, if_pos hc] at hp
      rw [splitFirstColon] at hp
      rw [htake, hdrop] at hp
      injection hp with hp
      injection hp with hp1 hp2
      exact ⟨pre, post, hdec, hnot, hp1.symm, by rw [← hp2]; rfl⟩
    · rintro ⟨pre, post, hdec, hnot, hk, hv⟩
      subst hdec
      have hc : hasColon (pre ++ ':' :: post) = true := by
        rw [hasColon_iff]
        simp
      rw [parseLine, if_pos hc, splitFirstColon,
        takeWhile_append_colon pre post hnot,
        dropWhile_append_colon pre post hnot]
      rw [hk, hv]
      rfl
  · intro hc
    rw [moa_map_append, parseLine, if_neg (by rw [hc]; exact fun hh => Bool.noConfusion hh)]
  · intro k v hp
    rw [moa_map_append, hp, lookupFirst, if_pos rfl]

/-- Witness for C5: the line `"Drug Y : Some : Notes"` is split on its first
colon only, and its entry is found even with an earlier line present. -/
theorem moa_line_parsing_witness :
    lookupFirst (moa_map (["DrugA: X".data] ++ ["Drug Y : Some : Notes".data]))
        "Drug Y".data = some "Some : Notes".data :=
  (moa_line_parsing ["DrugA: X".data] "Drug Y : Some : Notes".data).2.2
    "Drug Y".data "Some : Notes".data (by decide)

/-! ## C6: MOA back-fill -/

/-- **C6 counterexample**: the code looks the drug name up *as stored*, not
trimmed — a row whose drug is `" DrugA"` gets `"Other"` although the map has
the trimmed key `"DrugA"` — and a matched value may be empty (classifier line
`"DrugB:"`), so `moa` is not always non-empty. -/
theorem moa_lookup_cex :
    ¬ claimC6 ∧
      assignMoa mC6 [rowC6a, rowC6b] =
        [⟨rowC6a, "Other".data⟩, ⟨rowC6b, []⟩] ∧
      lookupFirst mC6 (strip rowC6a.drug) = some "X".data := by
  refine ⟨?_, by decide, by decide⟩
  intro hclaim
  exact (hclaim mC6 [rowC6a, rowC6b] ⟨rowC6b, []⟩ (by decide)).2.2 rfl

/-- **C6 (amended)**: after classification, a row's `moa` equals the MoaMap
value found by case-sensitive exact-match lookup on the row's drug name
exactly as extracted (no trimming on the row side) when such an entry exists,
and the literal `"Other"` otherwise; since a matched MoaMap value may itself
be the empty string, `moa` is only guaranteed non-empty for unmatched rows. -/
theorem moa_assignment (m : List (Str × Str)) (rows : List CandidateRow) :
    ∀ c ∈ assignMoa m rows,
      (∀ v, lookupFirst m c.row.drug = some v → c.moa = v) ∧
      (lookupFirst m c.row.drug = none → c.moa = "Other".data) := by
  intro c hc
  rw [assignMoa, List.mem_map] at hc
  obtain ⟨r, hr, hcr⟩ := hc
  subst hcr
  constructor
  · intro v hv
    simp [hv]
  · intro hv
    simp [hv]

/-- Witness for the amended C6: the unmatched row `" DrugA"` receives the
`"Other"` fallback. -/
theorem moa_assignment_witness :
    (∀ v, lookupFirst mC6 (⟨rowC6a, "Other".data⟩ : ClassifiedRow).row.drug
        = some v → (⟨rowC6a, "Other".data⟩ : ClassifiedRow).moa = v) ∧
    (lookupFirst mC6 (⟨rowC6a, "Other".data⟩ : ClassifiedRow).row.drug = none →
      (⟨rowC6a, "Other".data⟩ : ClassifiedRow).moa = "Other".data) :=
  moa_assignment mC6 [rowC6a, rowC6b] ⟨rowC6a, "Other".data⟩ (by decide)

/-! ## C7: the phase/MOA count matrix -/

theorem lookupFirst_map_key {α β : Type} [DecidableEq α] (f : α → β) :
    ∀ (l : List α) (c : α),
      lookupFirst (l.map fun x => (x, f x)) c =
        if c ∈ l then some (f c) else none := by
  intro l
  induction l with
  | nil =>
    intro c
    rfl
  | cons a rest ih =>
    intro c
    rw [List.map_cons, lookupFirst]
    by_cases hac : a = c
    · subst hac
      rw [if_pos rfl, if_pos (List.mem_cons_self _ _)]
    · rw [if_neg hac, ih]
      by_cases hc : c ∈ rest
      · rw [if_pos hc, if_pos (List.mem_cons_of_mem _ hc)]
      · rw [if_neg hc, if_neg ?_]
        rw [List.mem_cons, not_or]
        exact ⟨fun hh => hac hh.symm, hc⟩

theorem mem_observedPairs (rows : List ClassifiedRow) (ph mo : Str) :
    (ph, mo) ∈ observedPairs rows ↔
      ∃ c ∈ rows, c.row.phase = ph ∧ c.moa = mo := by
  rw [observedPairs, mem_dedupBy_id, List.mem_map]
  constructor
  · rintro ⟨c, hc, hpair⟩
    injection hpair with h1 h2
    exact ⟨c, hc, h1, h2⟩
  · rintro ⟨c, hc, h1, h2⟩
    exact ⟨c, hc, by rw [h1, h2]⟩

theorem matrixCell_eq_count (rows : List ClassifiedRow) (ph mo : Str) :
    matrixCell rows ph mo =
      (rows.filter (fun c => decide (c.row.phase = ph ∧ c.moa = mo))).length := by
  rw [matrixCell, groupSizes, lookupFirst_map_key]
  by_cases hobs : (ph, mo) ∈ observedPairs rows
  · rw [if_pos hobs, Option.getD_some]
    congr 1
    apply List.filter_congr
    intro c hc
    simp [Prod.ext_iff]
  · rw [if_neg hobs, Option.getD_none]
    symm
    rw [List.length_eq_zero, List.filter_eq_nil_iff]
    intro c hc hmatch
    apply hobs
    rw [mem_observedPairs]
    rw [decide_eq_true_eq] at hmatch
    exact ⟨c, hc, hmatch⟩

/-- **C7**: the derived matrix has one row per distinct phase observed and
one column per distinct MOA label observed; every cell equals the number of
classified rows with that `(phase, moa)` pair — in particular the counts are
correct for observed combinations and the fill value 0 appears exactly at the
unobserved ones. -/
theorem phase_moa_matrix_spec (rows : List ClassifiedRow) :
    (∀ ph, ph ∈ matrixPhases rows ↔ ∃ c ∈ rows, c.row.phase = ph) ∧
    (∀ mo, mo ∈ matrixMoas rows ↔ ∃ c ∈ rows, c.moa = mo) ∧
    (∀ ph mo, matrixCell rows ph mo =
      (rows.filter (fun c => decide (c.row.phase = ph ∧ c.moa = mo))).length) ∧
    (∀ ph mo, (¬ ∃ c ∈ rows, c.row.phase = ph ∧ c.moa = mo) →
      matrixCell rows ph mo = 0) := by
  refine ⟨?_, ?_, matrixCell_eq_count rows, ?_⟩
  · intro ph
    rw [matrixPhases, mem_dedupBy_id, List.mem_map]
  · intro mo
    rw [matrixMoas, mem_dedupBy_id, List.mem_map]
  · intro ph mo hnone
    rw [matrixCell_eq_count, List.length_eq_zero, List.filter_eq_nil_iff]
    intro c hc hmatch
    rw [decide_eq_true_eq] at hmatch
    exact hnone ⟨c, hc, hmatch⟩

/-- Witness for C7: with phases `{PHASE2, PHASE3}` and MOA labels
`{Other, Anti-IL17}` observed on two rows, the unobserved combination
`(PHASE2, Anti-IL17)` is zero-filled. -/
theorem phase_moa_matrix_spec_witness :
    matrixCell rowsC7 "PHASE2".data "Anti-IL17".data = 0 :=
  (phase_moa_matrix_spec rowsC7).2.2.2 "PHASE2".data "Anti-IL17".data (by decide)

/-! ## C8: LLM client error handling -/

/-- **C8**: the client issues one request with no retry; on a non-success
status it halts surfacing the status code and the raw response body, and on a
200 status it returns the first choice's message content from the decoded
response. -/
theorem llm_error_handling (r : HttpResponse) :
    (r.status_code ≠ 200 → llm r = .halted r.status_code r.text) ∧
    (∀ c rest, r.status_code = 200 → r.choices = c :: rest → llm r = .ok c) := by
  constructor
  · intro h
    rw [llm, if_pos h]
  · intro c rest h200 hch
    have hne : ¬ r.status_code ≠ 200 := fun hh => hh h200
    rw [llm, if_neg hne, hch]
    rfl

/-- Witness for C8: a 500 halts with the body surfaced, a 200 returns the
first choice. -/
theorem llm_error_handling_witness :
    llm ⟨500, "server error body".data, []⟩
        = .halted 500 "server error body".data ∧
      llm ⟨200, "raw body".data, ["completion text".data]⟩
        = .ok "completion text".data :=
  ⟨(llm_error_handling ⟨500, "server error body".data, []⟩).1 (by decide),
   (llm_error_handling ⟨200, "raw body".data, ["completion text".data]⟩).2
     "completion text".data [] rfl rfl⟩

/-! ## C9: malformed records are skipped atomically and silently -/

theorem extractTrial_nil_of_buildRow_none (t : TrialRecord) (p : ProtocolSection)
    (hps : t.protocolSection = some p) (hb : ∀ i, buildRow p i = none) :
    extractTrial t = [] := by
  simp only [extractTrial, hps]
  cases hlab : labelsOf ((armGroupsOf p).filter isExperimentalArm) with
  | none => simp [hlab]
  | some labels =>
    simp only [hlab]
    exact interventionLoop_nil_of_buildRow_none p labels hb (interventionsOf p)

theorem buildRow_none_of_absence (p : ProtocolSection)
    (habs : (p.designModule.isNone || p.statusModule.isNone ||
      (match p.sponsorCollaboratorsModule with
       | none => true
       | some scm =>
         match scm.leadSponsor with
         | none => true
         | some ls => ls.name.isNone)) = true) :
    ∀ i, buildRow p i = none := by
  intro i
  rw [Bool.or_eq_true, Bool.or_eq_true] at habs
  rcases habs with (hdm | hsm) | hsp
  · apply buildRow_none_of_phaseOf_none
    rw [phaseOf, Option.isNone_iff_eq_none.mp hdm]
  · have hy : yearOf p = none := by
      rw [yearOf, Option.isNone_iff_eq_none.mp hsm]
    cases hp : phaseOf p with
    | none => exact buildRow_none_of_phaseOf_none p hp i
    | some ph => simp [buildRow, hp, hy]
  · have hs : sponsorNameOf p = none := by
      cases hscm : p.sponsorCollaboratorsModule with
      | none => simp [sponsorNameOf, hscm]
      | some scm =>
        simp only [hscm] at hsp
        cases hls : scm.leadSponsor with
        | none => simp [sponsorNameOf, hscm, hls]
        | some ls =>
          simp only [hls] at hsp
          simp only [sponsorNameOf, hscm, hls]
          exact Option.isNone_iff_eq_none.mp hsp
    cases hp : phaseOf p with
    | none => exact buildRow_none_of_phaseOf_none p hp i
    | some ph =>
      cases hy : yearOf p with
      | none => simp [buildRow, hp, hy]
      | some yr => simp [buildRow, hp, hy, hs]

/-- **C9**: a trial record with a structural absence (missing protocol
section, missing design/status/sponsor sub-section, or missing lead-sponsor
name) is skipped atomically: it contributes no CandidateRow at all — not even
for interventions processed before the failing access, because the failing
access is trial-level and already raises while building the first kept row —
and the rows extracted from the surrounding records are unaffected.  The
model is total, mirroring that the `except` swallows the error. -/
theorem extraction_skips_malformed (ts1 ts2 : List TrialRecord)
    (t : TrialRecord) (habs : hasStructuralAbsence t = true) :
    extractTrial t = [] ∧
      extractAll (ts1 ++ t :: ts2) = extractAll ts1 ++ extractAll ts2 := by
  have hnil : extractTrial t = [] := by
    cases hps : t.protocolSection with
    | none => simp [extractTrial, hps]
    | some p =>
      simp only [hasStructuralAbsence, hps] at habs
      exact extractTrial_nil_of_buildRow_none t p hps
        (buildRow_none_of_absence p habs)
  refine ⟨hnil, ?_⟩
  rw [extractAll, extractAll, extractAll, List.flatMap_append,
    List.flatMap_cons, hnil, List.nil_append]

/-- Witness for C9: a trial lacking its `statusModule` is dropped while the
records around it still contribute their rows. -/
theorem extraction_skips_malformed_witness :
    extractTrial trialC9 = [] ∧
      extractAll ([trialC2] ++ trialC9 :: [trialC2]) =
        extractAll [trialC2] ++ extractAll [trialC2] :=
  extraction_skips_malformed [trialC2] [trialC2] trialC9 (by decide)

/-! ## C10: unnamed drugs from different trials collapse -/

/-- **C10**: two qualifying DRUG interventions that both lack a `name`, in
different trials sharing the lead-sponsor name and the first phase value,
both receive the `"Unknown"` drug sentinel; their rows then share the
`(drug, sponsor, phase)` key, so the deduplicated table keeps exactly one row
for the pair — distinct unnamed drugs are collapsed as if they were the same
candidate. -/
theorem unnamed_drug_collapse (ts : List TrialRecord) (t1 t2 : TrialRecord)
    (p1 p2 : ProtocolSection) (i1 i2 : Intervention) (r1 r2 : CandidateRow)
    (ht1 : t1 ∈ ts) (ht2 : t2 ∈ ts) (hne : t1 ≠ t2)
    (hp1 : t1.protocolSection = some p1) (hp2 : t2.protocolSection = some p2)
    (hr1 : r1 ∈ extractTrial t1) (hr2 : r2 ∈ extractTrial t2)
    (hb1 : buildRow p1 i1 = some r1) (hb2 : buildRow p2 i2 = some r2)
    (hn1 : i1.name = none) (hn2 : i2.name = none)
    (hsp : sponsorNameOf p1 = sponsorNameOf p2)
    (hph : phaseOf p1 = phaseOf p2) :
    r1.drug = "Unknown".data ∧ r2.drug = "Unknown".data ∧
      rowKey r1 = rowKey r2 ∧
      (drop_duplicates (extractAll ts)).countP
        (fun r => decide (rowKey r = rowKey r1)) = 1 := by
  obtain ⟨hph1, hy1, hs1, hd1, -⟩ := buildRow_fields p1 i1 r1 hb1
  obtain ⟨hph2, hy2, hs2, hd2, -⟩ := buildRow_fields p2 i2 r2 hb2
  have hdrug1 : r1.drug = "Unknown".data := by
    rw [hd1, hn1]
    rfl
  have hdrug2 : r2.drug = "Unknown".data := by
    rw [hd2, hn2]
    rfl
  have hphase : r1.phase = r2.phase := by
    rw [hph] at hph1
    have := hph1.symm.trans hph2
    injection this
  have hsponsor : r1.sponsor = r2.sponsor := by
    rw [hsp] at hs1
    have := hs1.symm.trans hs2
    injection this
  have hkey : rowKey r1 = rowKey r2 := by
    simp [rowKey, hdrug1, hdrug2, hphase, hsponsor]
  have hmem : r1 ∈ extractAll ts := by
    rw [extractAll, List.mem_flatMap]
    exact ⟨t1, ht1, hr1⟩
  refine ⟨hdrug1, hdrug2, hkey, ?_⟩
  rw [drop_duplicates]
  exact countP_dedupBy_of_mem rowKey (extractAll ts) (rowKey r1) ⟨r1, hmem, rfl⟩

/-- Witness for C10 at two concrete trials, same sponsor and phase, each
with a nameless DRUG intervention in an experimental arm. -/
theorem unnamed_drug_collapse_witness :
    rowC10a.drug = "Unknown".data ∧ rowC10b.drug = "Unknown".data ∧
      rowKey rowC10a = rowKey rowC10b ∧
      (drop_duplicates (extractAll [trialC10a, trialC10b])).countP
        (fun r => decide (rowKey r = rowKey rowC10a)) = 1 :=
  unnamed_drug_collapse [trialC10a, trialC10b] trialC10a trialC10b
    protoC10a protoC10b drugNoName1 drugNoName2 rowC10a rowC10b
    (by decide) (by decide) (by decide) (by decide) (by decide)
    (by decide) (by decide) (by decide) (by decide) (by decide)
    (by decide) (by decide) (by decide)

end ClinicalTrialApp
